import Mathlib

/-!
Verification of the request trust gateway of the clinic-management backend:
the role-authorization middleware (`authorizeRole`), the token-verification
middleware (`authenticate`), and the secure credential generator
(`generateTempPassword` with its `secureShuffle` / `secureRandomInt`
primitives).  Each JavaScript function is embedded as an executable Lean
definition; randomness is modelled by an explicit stream of oracle draws.
-/

namespace Paradise

/-! ## Role authorization (src/backend/middleware/authorizeRole.js) -/

/-- The verdict an authorizer or verifier produces for one request. -/
inductive DenyReason where
  | strictRoleMismatch
  | insufficientRole
deriving DecidableEq, Repr

/-- Authorization verdict: continue to the route (`allow`) or 403 (`deny`). -/
inductive Verdict where
  | allow
  | deny (reason : DenyReason)
deriving DecidableEq, Repr

/-- The `ROLE_HIERARCHY` table: `{admin: 5, manager: 4, dentist: 3, staff: 2,
patient: 1}`; a lookup of any other key is `undefined`, modelled as `none`. -/
def ROLE_HIERARCHY (role : String) : Option Nat :=
  if role = "admin" then some 5
  else if role = "manager" then some 4
  else if role = "dentist" then some 3
  else if role = "staff" then some 2
  else if role = "patient" then some 1
  else none

/-- `ROLE_HIERARCHY[role] || 0`: an unrecognized role falls back to level 0. -/
def roleLevel (role : String) : Nat :=
  (ROLE_HIERARCHY role).getD 0

/-- `Math.min(...allowedRoles.map(r => ROLE_HIERARCHY[r] || 0))`.
`Math.min()` of an empty argument list is `Infinity`, modelled as `none`
(every finite level compares `<` it). -/
def requiredLevel (allowedRoles : List String) : Option Nat :=
  match allowedRoles.map roleLevel with
  | [] => none
  | x :: xs => some (xs.foldl min x)

/-- The decision of `authorizeRole(allowedRoles, { strict })` for an
authenticated principal whose role claim is `userRole`:
exact membership first, then the strict gate, then the hierarchy check
`userLevel >= requiredLevel`. -/
def authorizeRole (allowedRoles : List String) (strict : Bool) (userRole : String) : Verdict :=
  if allowedRoles.contains userRole then .allow
  else if strict then .deny .strictRoleMismatch
  else
    match requiredLevel allowedRoles with
    | none => .deny .insufficientRole
    | some lvl => if lvl ≤ roleLevel userRole then .allow else .deny .insufficientRole

/-- The five closed role names of the data model. -/
def recognizedRoles : List String :=
  ["admin", "manager", "dentist", "staff", "patient"]

/-! ## Token verification (src/backend/middleware/authenticate.js) -/

/-- The payload claims the middleware inspects. `none` models an absent
claim; `some ""` models a present but falsy (empty) string claim. -/
structure JwtClaims where
  userId : Option String
  role : Option String
  exp : Option Nat
  nbf : Option Nat
deriving DecidableEq, Repr

/-- Modelled from the spec: a parsed bearer token as the external
`jsonwebtoken` library sees it (the library is not part of this repository's
sources) — the algorithm named in the token's header, whether its signature
is valid for that algorithm under the configured secret, and its payload. -/
structure JwtToken where
  alg : String
  sigValid : Bool
  claims : JwtClaims
deriving DecidableEq, Repr

/-- The error classes of the `jsonwebtoken` library that the middleware
distinguishes in its catch clause. -/
inductive JwtError where
  | jsonWebTokenError
  | tokenExpiredError
  | notBeforeError
deriving DecidableEq, Repr

/-- `true` when the token carries an `nbf` claim lying in the future. -/
def nbfViolated (c : JwtClaims) (now : Nat) : Bool :=
  match c.nbf with
  | some nbf => now < nbf
  | none => false

/-- `true` when the token carries an `exp` claim that has passed. -/
def expViolated (c : JwtClaims) (now : Nat) : Bool :=
  match c.exp with
  | some e => e ≤ now
  | none => false

/-- Modelled from the spec: `jwt.verify(token, secret, { algorithms })` of
the external `jsonwebtoken` library. The algorithm field embedded in the
token is never trusted: verification fails with `JsonWebTokenError` unless
that algorithm is a member of the pinned `algorithms` list, and then unless
the signature is valid; temporal claims are checked afterwards. A `none`
input models a string that does not even parse as a JWT. -/
def jwtVerify (tok : Option JwtToken) (algorithms : List String) (now : Nat) :
    Except JwtError JwtClaims :=
  match tok with
  | none => .error .jsonWebTokenError
  | some t =>
    if algorithms.contains t.alg = false then .error .jsonWebTokenError
    else if t.sigValid = false then .error .jsonWebTokenError
    else if nbfViolated t.claims now then .error .notBeforeError
    else if expViolated t.claims now then .error .tokenExpiredError
    else .ok t.claims

/-- One structured log record emitted by the middleware; each constructor
carries exactly the token-derived fields the corresponding logger call
records. -/
inductive LogEvent where
  | jwtVerificationFailed
  | invalidTokenPayload (userId : Option String)
deriving DecidableEq, Repr

/-- The terminal outcome of the `authenticate` middleware for one request. -/
inductive AuthOutcome where
  | missingToken
  | invalidToken
  | tokenExpired
  | tokenNotYetValid
  | success (principal : JwtClaims)
deriving DecidableEq, Repr

/-- Outcome of `authenticate` together with the log records it emitted. -/
structure AuthResult where
  outcome : AuthOutcome
  log : List LogEvent
deriving DecidableEq, Repr

/-- JavaScript falsiness of an optional string claim
(`undefined`, `null` or the empty string). -/
def isFalsy (s : Option String) : Bool :=
  match s with
  | none => true
  | some v => v = ""

/-- The HTTP response each outcome produces: `none` when the request is
handed to the route handler (`next()`), otherwise `some (status, message)`. -/
def responseOf (o : AuthOutcome) : Option (Nat × String) :=
  match o with
  | .missingToken => some (401, "Authentication required")
  | .invalidToken => some (401, "Invalid token")
  | .tokenExpired => some (401, "Token expired")
  | .tokenNotYetValid => some (401, "Token not yet valid")
  | .success _ => none

/-- JavaScript `h.startsWith(p)`, computed over the characters of the two
strings. -/
def jsStartsWith (h p : String) : Bool :=
  p.data.isPrefixOf h.data

/-- JavaScript `s.split(sep)` for a one-character separator, over a
character list: `split ' ' "a b" = ["a", "b"]`, `split ' ' "" = [""]`. -/
def splitChar (sep : Char) : List Char → List (List Char)
  | [] => [[]]
  | c :: cs =>
    if c = sep then [] :: splitChar sep cs
    else
      match splitChar sep cs with
      | [] => [[c]]
      | r :: rs => (c :: r) :: rs

/-- JavaScript `s.split(sep)` on strings. -/
def jsSplit (s : String) (sep : Char) : List String :=
  (splitChar sep s.data).map String.mk

/-- `authHeader.split(' ')[1]`: the token part of the header
(`""` models JavaScript `undefined` when there is no second part —
both are falsy in the subsequent check). -/
def bearerToken (h : String) : String :=
  (jsSplit h ' ').getD 1 ""

/-- The `authenticate` middleware. `parse` maps the raw token string to its
parsed form (or `none` when malformed); `now` is the current time. -/
def authenticate (authHeader : Option String)
    (parse : String → Option JwtToken) (now : Nat) : AuthResult :=
  match authHeader with
  | none => ⟨.missingToken, []⟩
  | some h =>
    if jsStartsWith h "Bearer " = false then ⟨.missingToken, []⟩
    else
      let token := bearerToken h
      if token = "" || token = "null" || token = "undefined" then
        ⟨.missingToken, []⟩
      else
        match jwtVerify (parse token) ["HS256"] now with
        | .error .tokenExpiredError => ⟨.tokenExpired, []⟩
        | .error .jsonWebTokenError => ⟨.invalidToken, [.jwtVerificationFailed]⟩
        | .error .notBeforeError => ⟨.tokenNotYetValid, []⟩
        | .ok claims =>
          if isFalsy claims.userId || isFalsy claims.role then
            ⟨.invalidToken, [.invalidTokenPayload claims.userId]⟩
          else ⟨.success claims, []⟩


/-! ## Secure random credential generation (src/unnamed/part_000) -/

/-- The randomness oracle behind `crypto.randomInt`: an infinite stream of
draws (`seed`) together with the index of the next draw. Each consumed draw
is reduced modulo the requested bound, so every sequence of in-range
outcomes of the real generator is realised by some stream. -/
structure Rng where
  seed : Nat → Nat
  idx : Nat

/-- `secureRandomInt(max)`, i.e. `crypto.randomInt(0, max)`: an integer in
`[0, max)` (for `max > 0`), together with the advanced oracle. -/
def secureRandomInt (r : Rng) (max : Nat) : Nat × Rng :=
  (r.seed r.idx % max, ⟨r.seed, r.idx + 1⟩)

/-- The loop body `[arr[i], arr[j]] = [arr[j], arr[i]]` of `secureShuffle`
(an out-of-range index leaves the list unchanged; the loop only produces
in-range indices). -/
def listSwap (l : List α) (i j : Nat) : List α :=
  match l[i]?, l[j]? with
  | some x, some y => (l.set i y).set j x
  | _, _ => l

/-- The `for (let i = arr.length - 1; i > 0; i--)` loop of `secureShuffle`,
counting `i` down from its first argument: at each step draw
`j = secureRandomInt(i + 1)` and swap positions `i` and `j`. -/
def fisherYatesLoop (r : Rng) (arr : List α) (i : Nat) : List α × Rng :=
  match i with
  | 0 => (arr, r)
  | j + 1 =>
    let p := secureRandomInt r (j + 2)
    fisherYatesLoop p.2 (listSwap arr (j + 1) p.1) j

/-- `secureShuffle(array)`: cryptographically secure Fisher-Yates shuffle
of a copy of the input, from the last index down to index 1. -/
def secureShuffle (r : Rng) (array : List α) : List α × Rng :=
  fisherYatesLoop r array (array.length - 1)

/-- `const uppercase = 'ABCDEFGHIJKLMNOPQRSTUVWXYZ'`. -/
def uppercase : String := "ABCDEFGHIJKLMNOPQRSTUVWXYZ"

/-- `const lowercase = 'abcdefghijklmnopqrstuvwxyz'`. -/
def lowercase : String := "abcdefghijklmnopqrstuvwxyz"

/-- `const numbers = '0123456789'`. -/
def numbers : String := "0123456789"

/-- `const symbols = '!@#$%^&*'`. -/
def symbols : String := "!@#$%^&*"

/-- `const allChars = uppercase + lowercase + numbers + symbols`. -/
def allChars : String := uppercase ++ lowercase ++ numbers ++ symbols

/-- JavaScript `s.charAt(i)`; every use in the generator is in range. -/
def charAt (s : String) (i : Nat) : Char :=
  s.data.getD i ' '

/-- The `for (let i = 4; i < length; i++)` fill loop: `k` characters drawn
from `allChars`. -/
def fillLoop (r : Rng) (k : Nat) : List Char × Rng :=
  match k with
  | 0 => ([], r)
  | k + 1 =>
    let p := secureRandomInt r allChars.length
    let q := fillLoop p.2 k
    (charAt allChars p.1 :: q.1, q.2)

/-- `generateTempPassword(length)` (source default `length = 12`): one
guaranteed character per class drawn with `secureRandomInt`, then a fill
from the union of the classes, then a cryptographically secure shuffle of
the whole character sequence. -/
def generateTempPassword (r : Rng) (length : Nat) : String :=
  let p1 := secureRandomInt r uppercase.length
  let p2 := secureRandomInt p1.2 lowercase.length
  let p3 := secureRandomInt p2.2 numbers.length
  let p4 := secureRandomInt p3.2 symbols.length
  let head := [charAt uppercase p1.1, charAt lowercase p2.1,
               charAt numbers p3.1, charAt symbols p4.1]
  let fill := fillLoop p4.2 (length - 4)
  String.mk (secureShuffle fill.2 (head ++ fill.1)).1

theorem foldl_min_le_init (xs : List Nat) (x : Nat) : xs.foldl min x ≤ x := by
  induction xs generalizing x with
  | nil => simp
  | cons y ys ih => exact le_trans (ih (min x y)) (min_le_left x y)

theorem foldl_min_le_mem (xs : List Nat) (x y : Nat) (hy : y ∈ xs) :
    xs.foldl min x ≤ y := by
  induction xs generalizing x with
  | nil => cases hy
  | cons z zs ih =>
    rcases List.mem_cons.mp hy with h | h
    · subst h
      exact le_trans (foldl_min_le_init zs (min x y)) (min_le_right x y)
    · exact ih (min x z) h

theorem foldl_min_mem (xs : List Nat) (x : Nat) :
    xs.foldl min x = x ∨ xs.foldl min x ∈ xs := by
  induction xs generalizing x with
  | nil => exact Or.inl rfl
  | cons z zs ih =>
    rcases ih (min x z) with h | h
    · rcases min_choice x z with hc | hc
      · exact Or.inl (by rw [List.foldl_cons, h, hc])
      · exact Or.inr (by rw [List.foldl_cons, h, hc]; exact List.mem_cons_self z zs)
    · exact Or.inr (List.mem_cons_of_mem z h)

theorem requiredLevel_min (roles : List String) (lvl : Nat)
    (h : requiredLevel roles = some lvl) :
    lvl ∈ roles.map roleLevel ∧ ∀ k ∈ roles.map roleLevel, lvl ≤ k := by
  unfold requiredLevel at h
  cases hm : roles.map roleLevel with
  | nil => rw [hm] at h; cases h
  | cons x xs =>
    rw [hm] at h
    have hl : lvl = xs.foldl min x := by
      have := Option.some.inj h
      omega
    subst hl
    constructor
    · rcases foldl_min_mem xs x with h1 | h1
      · rw [h1]; exact List.mem_cons_self x xs
      · exact List.mem_cons_of_mem x h1
    · intro k hk
      rcases List.mem_cons.mp hk with h1 | h1
      · subst h1; exact foldl_min_le_init xs k
      · exact foldl_min_le_mem xs x k h1

theorem roleLevel_of_unrecognized (r : String) (h : r ∉ recognizedRoles) :
    roleLevel r = 0 := by
  simp only [recognizedRoles, List.mem_cons, List.not_mem_nil, or_false, not_or] at h
  obtain ⟨h1, h2, h3, h4, h5⟩ := h
  simp [roleLevel, ROLE_HIERARCHY, h1, h2, h3, h4, h5]

theorem roleLevel_pos_of_recognized (r : String) (h : r ∈ recognizedRoles) :
    1 ≤ roleLevel r := by
  simp only [recognizedRoles, List.mem_cons, List.not_mem_nil, or_false] at h
  rcases h with h | h | h | h | h <;> subst h <;> simp [roleLevel, ROLE_HIERARCHY]

/-- Claim C1: on a strict policy the authorizer allows exactly the principals
whose role is an exact member of `allowedRoles`, and denies every other
principal with `StrictRoleMismatch`; in particular role `admin` against
`allowedRoles = [patient]`, `strict = true` is denied — hierarchy rank never
substitutes for exact membership on strict policies. -/
theorem authorizeRole_strict_exact_membership :
    (∀ (roles : List String) (r : String),
      authorizeRole roles true r =
        if roles.contains r then Verdict.allow
        else Verdict.deny DenyReason.strictRoleMismatch) ∧
    authorizeRole ["patient"] true "admin" = Verdict.deny DenyReason.strictRoleMismatch := by
  constructor
  · intro roles r
    unfold authorizeRole
    by_cases h : roles.contains r <;> simp [h]
  · rfl

/-- Claim C2: on a non-strict policy, a principal whose role is not an exact
member is allowed exactly when its level reaches `requiredLevel`, the minimum
level over `allowedRoles`, and otherwise denied with `InsufficientRole`;
instances: `admin` is allowed and `staff` denied on
`allowedRoles = [manager, dentist]`. -/
theorem authorizeRole_nonstrict_hierarchy :
    (∀ (roles : List String) (r : String) (lvl : Nat),
      roles.contains r = false → requiredLevel roles = some lvl →
      authorizeRole roles false r =
        if lvl ≤ roleLevel r then Verdict.allow
        else Verdict.deny DenyReason.insufficientRole) ∧
    (∀ (roles : List String) (lvl : Nat), requiredLevel roles = some lvl →
      lvl ∈ roles.map roleLevel ∧ ∀ k ∈ roles.map roleLevel, lvl ≤ k) ∧
    authorizeRole ["manager", "dentist"] false "admin" = Verdict.allow ∧
    authorizeRole ["manager", "dentist"] false "staff" =
      Verdict.deny DenyReason.insufficientRole := by
  refine ⟨?_, requiredLevel_min, by decide, by decide⟩
  intro roles r lvl hc hreq
  unfold authorizeRole
  rw [hc, hreq]
  simp

theorem authorizeRole_nonstrict_hierarchy_witness :
    authorizeRole ["manager", "dentist"] false "staff" =
      if 3 ≤ roleLevel "staff" then Verdict.allow
      else Verdict.deny DenyReason.insufficientRole :=
  authorizeRole_nonstrict_hierarchy.1 ["manager", "dentist"] "staff" 3
    (by decide) (by decide)

/-- Claim C3: a principal whose role string is not one of the five closed
role values has level 0, and against any non-strict policy whose allowed
roles all lie within the five closed roles it is always denied
(`InsufficientRole`) and never allowed. -/
theorem authorizeRole_unrecognized_fail_closed (r : String)
    (hr : r ∉ recognizedRoles) :
    roleLevel r = 0 ∧
    ∀ roles : List String, (∀ a ∈ roles, a ∈ recognizedRoles) →
      authorizeRole roles false r = Verdict.deny DenyReason.insufficientRole := by
  refine ⟨roleLevel_of_unrecognized r hr, ?_⟩
  intro roles hroles
  have hcontains : roles.contains r = false := by
    simp only [List.contains, List.elem_eq_mem, decide_eq_false_iff_not]
    exact fun h => hr (hroles r h)
  unfold authorizeRole
  rw [hcontains]
  cases hreq : requiredLevel roles with
  | none => simp
  | some lvl =>
    have hmem := (requiredLevel_min roles lvl hreq).1
    obtain ⟨a, ha, hla⟩ := List.mem_map.mp hmem
    have h1 : 1 ≤ lvl := hla ▸ roleLevel_pos_of_recognized a (hroles a ha)
    have h0 : roleLevel r = 0 := roleLevel_of_unrecognized r hr
    have hnle : ¬ lvl ≤ roleLevel r := by omega
    simp [hnle]

theorem authorizeRole_unrecognized_fail_closed_witness :
    roleLevel "superadmin" = 0 ∧
    authorizeRole ["patient"] false "superadmin" =
      Verdict.deny DenyReason.insufficientRole :=
  ⟨(authorizeRole_unrecognized_fail_closed "superadmin" (by decide)).1,
   (authorizeRole_unrecognized_fail_closed "superadmin" (by decide)).2
     ["patient"] (by decide)⟩

/-- Claim C4: a non-strict policy whose `allowedRoles` contains at least one
name outside the five recognized roles has `requiredLevel = 0`, so every
authenticated principal — whatever its role — is allowed: a single misspelled
role name makes the route fail open to all authenticated users. -/
theorem authorizeRole_misspelled_fails_open (roles : List String) (b : String)
    (hb : b ∈ roles) (hbu : b ∉ recognizedRoles) :
    requiredLevel roles = some 0 ∧
    ∀ r : String, authorizeRole roles false r = Verdict.allow := by
  have hb0 : roleLevel b = 0 := roleLevel_of_unrecognized b hbu
  have h0mem : (0 : Nat) ∈ roles.map roleLevel := List.mem_map.mpr ⟨b, hb, hb0⟩
  have hreq : requiredLevel roles = some 0 := by
    unfold requiredLevel
    cases hm : roles.map roleLevel with
    | nil => rw [hm] at h0mem; cases h0mem
    | cons x xs =>
      rw [hm] at h0mem
      have hle : xs.foldl min x ≤ 0 := by
        rcases List.mem_cons.mp h0mem with h | h
        · rw [← h]; exact foldl_min_le_init xs 0
        · exact foldl_min_le_mem xs x 0 h
      simp [Nat.le_zero.mp hle]
  refine ⟨hreq, ?_⟩
  intro r
  unfold authorizeRole
  cases hc : roles.contains r with
  | true => simp
  | false => simp [hreq]

theorem authorizeRole_misspelled_fails_open_witness :
    requiredLevel ["mangaer"] = some 0 ∧
    authorizeRole ["mangaer"] false "patient" = Verdict.allow :=
  ⟨(authorizeRole_misspelled_fails_open ["mangaer"] "mangaer"
      (by decide) (by decide)).1,
   (authorizeRole_misspelled_fails_open ["mangaer"] "mangaer"
      (by decide) (by decide)).2 "patient"⟩

/-- Claim C5: verification pins exactly the `HS256` algorithm and never
trusts the token's embedded algorithm field: any token whose header names a
different algorithm — even one with a valid-for-that-algorithm signature and
all required claims — is rejected with a 401 "Invalid token" response and
never yields a principal. -/
theorem authenticate_rejects_unpinned_algorithm (h : String)
    (parse : String → Option JwtToken) (now : Nat) (t : JwtToken)
    (hbearer : jsStartsWith h "Bearer " = true)
    (ht1 : bearerToken h ≠ "") (ht2 : bearerToken h ≠ "null")
    (ht3 : bearerToken h ≠ "undefined")
    (hparse : parse (bearerToken h) = some t)
    (halg : t.alg ≠ "HS256") :
    authenticate (some h) parse now =
      ⟨AuthOutcome.invalidToken, [LogEvent.jwtVerificationFailed]⟩ ∧
    responseOf (authenticate (some h) parse now).outcome =
      some (401, "Invalid token") ∧
    ∀ c, (authenticate (some h) parse now).outcome ≠ AuthOutcome.success c := by
  have hcontains : (["HS256"] : List String).contains t.alg = false := by
    simp only [List.contains, List.elem_eq_mem, List.mem_singleton,
      decide_eq_false_iff_not]
    exact halg
  have hv : jwtVerify (parse (bearerToken h)) ["HS256"] now =
      .error .jsonWebTokenError := by
    rw [hparse]
    simp only [jwtVerify]
    rw [hcontains]
    simp
  have key : authenticate (some h) parse now =
      ⟨AuthOutcome.invalidToken, [LogEvent.jwtVerificationFailed]⟩ := by
    simp only [authenticate]
    rw [hbearer]
    simp only [Bool.true_eq_false, if_false]
    simp [ht1, ht2, ht3, hv]
  refine ⟨key, ?_, ?_⟩
  · rw [key]; rfl
  · intro c hc
    rw [key] at hc
    cases hc

theorem authenticate_rejects_unpinned_algorithm_witness :
    authenticate (some "Bearer tok")
      (fun s => if s = "tok" then
          some ⟨"none", true, ⟨some "u1", some "admin", none, none⟩⟩
        else none) 0 =
      ⟨AuthOutcome.invalidToken, [LogEvent.jwtVerificationFailed]⟩ :=
  (authenticate_rejects_unpinned_algorithm "Bearer tok"
    (fun s => if s = "tok" then
        some ⟨"none", true, ⟨some "u1", some "admin", none, none⟩⟩
      else none) 0
    ⟨"none", true, ⟨some "u1", some "admin", none, none⟩⟩
    (by decide) (by decide) (by decide) (by decide) (by decide) (by decide)).1

/-- Claim C9: a token whose signature verifies but whose payload lacks a
user identifier or lacks a role claim never yields a principal: the request
terminates with a 401 "Invalid token" response, and the emitted log record
carries only the partial payload's user id and no other claim content. -/
theorem authenticate_incomplete_claims_rejected (h : String)
    (parse : String → Option JwtToken) (now : Nat) (c : JwtClaims)
    (hbearer : jsStartsWith h "Bearer " = true)
    (ht1 : bearerToken h ≠ "") (ht2 : bearerToken h ≠ "null")
    (ht3 : bearerToken h ≠ "undefined")
    (hok : jwtVerify (parse (bearerToken h)) ["HS256"] now = .ok c)
    (hmiss : (isFalsy c.userId || isFalsy c.role) = true) :
    authenticate (some h) parse now =
      ⟨AuthOutcome.invalidToken, [LogEvent.invalidTokenPayload c.userId]⟩ ∧
    responseOf (authenticate (some h) parse now).outcome =
      some (401, "Invalid token") ∧
    ∀ p, (authenticate (some h) parse now).outcome ≠ AuthOutcome.success p := by
  have key : authenticate (some h) parse now =
      ⟨AuthOutcome.invalidToken, [LogEvent.invalidTokenPayload c.userId]⟩ := by
    simp only [authenticate]
    rw [hbearer]
    simp only [Bool.true_eq_false, if_false]
    simp [ht1, ht2, ht3, hok, hmiss]
  refine ⟨key, ?_, ?_⟩
  · rw [key]; rfl
  · intro p hp
    rw [key] at hp
    cases hp

theorem authenticate_incomplete_claims_rejected_witness :
    authenticate (some "Bearer tok")
      (fun s => if s = "tok" then
          some ⟨"HS256", true, ⟨some "u1", none, none, none⟩⟩
        else none) 0 =
      ⟨AuthOutcome.invalidToken, [LogEvent.invalidTokenPayload (some "u1")]⟩ :=
  (authenticate_incomplete_claims_rejected "Bearer tok"
    (fun s => if s = "tok" then
        some ⟨"HS256", true, ⟨some "u1", none, none, none⟩⟩
      else none) 0 ⟨some "u1", none, none, none⟩
    (by decide) (by decide) (by decide) (by decide) (by rfl) (by decide)).1

/-- Claim C10: an absent Authorization header, a header not beginning with
the `Bearer ` scheme marker, and a token part that is empty or the literal
string `null` or `undefined` all produce the identical `MissingToken`
outcome — a 401 with the same generic message, no log record, and no
principal. -/
theorem authenticate_missing_token_uniform :
    (∀ (parse : String → Option JwtToken) (now : Nat),
      authenticate none parse now = ⟨AuthOutcome.missingToken, []⟩) ∧
    (∀ (h : String) (parse : String → Option JwtToken) (now : Nat),
      jsStartsWith h "Bearer " = false →
      authenticate (some h) parse now = ⟨AuthOutcome.missingToken, []⟩) ∧
    (∀ (h : String) (parse : String → Option JwtToken) (now : Nat),
      jsStartsWith h "Bearer " = true →
      (bearerToken h = "" ∨ bearerToken h = "null" ∨ bearerToken h = "undefined") →
      authenticate (some h) parse now = ⟨AuthOutcome.missingToken, []⟩) ∧
    responseOf AuthOutcome.missingToken = some (401, "Authentication required") ∧
    (∀ p, AuthOutcome.missingToken ≠ AuthOutcome.success p) := by
  refine ⟨fun parse now => rfl, ?_, ?_, rfl, fun p hp => by cases hp⟩
  · intro h parse now hb
    simp only [authenticate]
    rw [hb]
    rfl
  · intro h parse now hb htok
    simp only [authenticate]
    rw [hb]
    simp only [Bool.true_eq_false, if_false]
    rcases htok with h1 | h1 | h1 <;> simp [h1]

theorem authenticate_missing_token_uniform_witness :
    authenticate none (fun _ => none) 0 = ⟨AuthOutcome.missingToken, []⟩ ∧
    authenticate (some "Basic abc") (fun _ => none) 0 =
      ⟨AuthOutcome.missingToken, []⟩ ∧
    authenticate (some "Bearer null") (fun _ => none) 0 =
      ⟨AuthOutcome.missingToken, []⟩ :=
  ⟨authenticate_missing_token_uniform.1 (fun _ => none) 0,
   authenticate_missing_token_uniform.2.1 "Basic abc" (fun _ => none) 0
     (by decide),
   authenticate_missing_token_uniform.2.2.1 "Bearer null" (fun _ => none) 0
     (by decide) (Or.inr (Or.inl (by decide)))⟩

theorem listSwap_perm (l : List α) (i j : Nat) : (listSwap l i j).Perm l := by
  classical
  cases hx : l[i]? with
  | none => simp [listSwap, hx]
  | some x =>
    cases hy : l[j]? with
    | none => simp [listSwap, hx, hy]
    | some y =>
      have hi : i < l.length := by
        by_contra hcon
        rw [List.getElem?_eq_none (Nat.le_of_not_lt hcon)] at hx
        cases hx
      have hj : j < l.length := by
        by_contra hcon
        rw [List.getElem?_eq_none (Nat.le_of_not_lt hcon)] at hy
        cases hy
      have hxv : l[i] = x := by
        rw [List.getElem?_eq_getElem hi] at hx
        exact Option.some.inj hx
      have hyv : l[j] = y := by
        rw [List.getElem?_eq_getElem hj] at hy
        exact Option.some.inj hy
      have hswap : listSwap l i j = (l.set i y).set j x := by
        simp [listSwap, hx, hy]
      rw [hswap, List.perm_iff_count]
      intro a
      have hj2 : j < (l.set i y).length := by simpa using hj
      rw [List.count_set x a (l.set i y) j hj2, List.count_set y a l i hi]
      have hset : (l.set i y)[j] = y := by
        rw [List.getElem_set]
        by_cases hij : i = j
        · simp [hij]
        · simp [hij, hyv]
      rw [hset, hxv]
      have hmem : x ∈ l := hxv ▸ List.getElem_mem hi
      by_cases hxa : x = a
      · subst hxa
        have hcount : 1 ≤ l.count x := List.one_le_count_iff.mpr hmem
        by_cases hya : y = x <;> simp [hya, beq_iff_eq] <;> try omega
      · by_cases hya : y = a <;> simp [hxa, hya, beq_iff_eq] <;> omega

theorem fisherYatesLoop_perm (r : Rng) (arr : List α) (i : Nat) :
    (fisherYatesLoop r arr i).1.Perm arr := by
  induction i generalizing r arr with
  | zero => simp [fisherYatesLoop]
  | succ j ih =>
    simp only [fisherYatesLoop]
    exact (ih _ _).trans (listSwap_perm arr (j + 1) _)

theorem fisherYatesLoop_idx (r : Rng) (arr : List α) (i : Nat) :
    (fisherYatesLoop r arr i).2.idx = r.idx + i := by
  induction i generalizing r arr with
  | zero => rfl
  | succ j ih =>
    simp only [fisherYatesLoop]
    rw [ih]
    simp only [secureRandomInt]
    omega

theorem shufflePerm (r : Rng) (l : List α) : (secureShuffle r l).1.Perm l :=
  fisherYatesLoop_perm r l (l.length - 1)

theorem secureRandomInt_lt (r : Rng) (m : Nat) (h : 0 < m) :
    (secureRandomInt r m).1 < m :=
  Nat.mod_lt _ h

theorem charAt_mem (s : String) (i : Nat) (h : i < s.data.length) :
    charAt s i ∈ s.data := by
  simp only [charAt, List.getD_eq_getElem?_getD, List.getElem?_eq_getElem h,
    Option.getD_some]
  exact List.getElem_mem h

theorem upper_subset_all : ∀ c ∈ uppercase.data, c ∈ allChars.data := by decide

theorem lower_subset_all : ∀ c ∈ lowercase.data, c ∈ allChars.data := by decide

theorem numbers_subset_all : ∀ c ∈ numbers.data, c ∈ allChars.data := by decide

theorem symbols_subset_all : ∀ c ∈ symbols.data, c ∈ allChars.data := by decide

theorem fillLoop_length (r : Rng) (k : Nat) : (fillLoop r k).1.length = k := by
  induction k generalizing r with
  | zero => rfl
  | succ m ih => simp [fillLoop, ih]

theorem fillLoop_mem (r : Rng) (k : Nat) :
    ∀ c ∈ (fillLoop r k).1, c ∈ allChars.data := by
  induction k generalizing r with
  | zero => intro c hc; cases hc
  | succ m ih =>
    intro c hc
    simp only [fillLoop] at hc
    rcases List.mem_cons.mp hc with h | h
    · subst h
      exact charAt_mem allChars _ (secureRandomInt_lt _ _ (by decide))
    · exact ih _ c h

theorem assemble_spec (R : Rng) (c1 c2 c3 c4 : Char) (k : Nat)
    (h1 : c1 ∈ uppercase.data) (h2 : c2 ∈ lowercase.data)
    (h3 : c3 ∈ numbers.data) (h4 : c4 ∈ symbols.data) :
    (String.mk (secureShuffle (fillLoop R k).2
        ([c1, c2, c3, c4] ++ (fillLoop R k).1)).1).length = 4 + k ∧
    (∃ c ∈ (String.mk (secureShuffle (fillLoop R k).2
        ([c1, c2, c3, c4] ++ (fillLoop R k).1)).1).data, c ∈ uppercase.data) ∧
    (∃ c ∈ (String.mk (secureShuffle (fillLoop R k).2
        ([c1, c2, c3, c4] ++ (fillLoop R k).1)).1).data, c ∈ lowercase.data) ∧
    (∃ c ∈ (String.mk (secureShuffle (fillLoop R k).2
        ([c1, c2, c3, c4] ++ (fillLoop R k).1)).1).data, c ∈ numbers.data) ∧
    (∃ c ∈ (String.mk (secureShuffle (fillLoop R k).2
        ([c1, c2, c3, c4] ++ (fillLoop R k).1)).1).data, c ∈ symbols.data) ∧
    ∀ c ∈ (String.mk (secureShuffle (fillLoop R k).2
        ([c1, c2, c3, c4] ++ (fillLoop R k).1)).1).data, c ∈ allChars.data := by
  have hperm := shufflePerm (fillLoop R k).2 ([c1, c2, c3, c4] ++ (fillLoop R k).1)
  refine ⟨?_, ?_, ?_, ?_, ?_, ?_⟩
  · show (secureShuffle (fillLoop R k).2
        ([c1, c2, c3, c4] ++ (fillLoop R k).1)).1.length = 4 + k
    rw [hperm.length_eq]
    simp [fillLoop_length]
    omega
  · exact ⟨c1, hperm.mem_iff.mpr (by simp), h1⟩
  · exact ⟨c2, hperm.mem_iff.mpr (by simp), h2⟩
  · exact ⟨c3, hperm.mem_iff.mpr (by simp), h3⟩
  · exact ⟨c4, hperm.mem_iff.mpr (by simp), h4⟩
  · intro c hc
    have hc2 : c ∈ [c1, c2, c3, c4] ++ (fillLoop R k).1 := hperm.mem_iff.mp hc
    rcases List.mem_append.mp hc2 with h | h
    · rcases List.mem_cons.mp h with h0 | h
      · exact h0 ▸ upper_subset_all c1 h1
      rcases List.mem_cons.mp h with h0 | h
      · exact h0 ▸ lower_subset_all c2 h2
      rcases List.mem_cons.mp h with h0 | h
      · exact h0 ▸ numbers_subset_all c3 h3
      rcases List.mem_cons.mp h with h0 | h
      · exact h0 ▸ symbols_subset_all c4 h4
      cases h
    · exact fillLoop_mem R k c h

theorem generateTempPassword_spec (r : Rng) (n : Nat) :
    (generateTempPassword r n).length = 4 + (n - 4) ∧
    (∃ c ∈ (generateTempPassword r n).data, c ∈ uppercase.data) ∧
    (∃ c ∈ (generateTempPassword r n).data, c ∈ lowercase.data) ∧
    (∃ c ∈ (generateTempPassword r n).data, c ∈ numbers.data) ∧
    (∃ c ∈ (generateTempPassword r n).data, c ∈ symbols.data) ∧
    ∀ c ∈ (generateTempPassword r n).data, c ∈ allChars.data := by
  simp only [generateTempPassword]
  exact assemble_spec _ _ _ _ _ (n - 4)
    (charAt_mem uppercase _ (secureRandomInt_lt _ _ (by decide)))
    (charAt_mem lowercase _ (secureRandomInt_lt _ _ (by decide)))
    (charAt_mem numbers _ (secureRandomInt_lt _ _ (by decide)))
    (charAt_mem symbols _ (secureRandomInt_lt _ _ (by decide)))

/-- Claim C7: for every length n in [4, 128] the generator returns a string
of exactly n characters containing at least one uppercase letter, one
lowercase letter, one digit, and one symbol from `!@#$%^&*`, with every
character drawn from the union of those four classes. -/
theorem generateTempPassword_composition (r : Rng) (n : Nat)
    (hlo : 4 ≤ n) (hhi : n ≤ 128) :
    (generateTempPassword r n).length = n ∧
    (∃ c ∈ (generateTempPassword r n).data, c ∈ uppercase.data) ∧
    (∃ c ∈ (generateTempPassword r n).data, c ∈ lowercase.data) ∧
    (∃ c ∈ (generateTempPassword r n).data, c ∈ numbers.data) ∧
    (∃ c ∈ (generateTempPassword r n).data, c ∈ symbols.data) ∧
    ∀ c ∈ (generateTempPassword r n).data, c ∈ allChars.data := by
  obtain ⟨hl, hu, hw, hnum, hs, hall⟩ := generateTempPassword_spec r n
  exact ⟨by rw [hl]; omega, hu, hw, hnum, hs, hall⟩

theorem generateTempPassword_composition_witness :
    (generateTempPassword ⟨fun _ => 0, 0⟩ 12).length = 12 :=
  (generateTempPassword_composition ⟨fun _ => 0, 0⟩ 12 (by decide) (by decide)).1

/-- Claim C6 counterexample: called with length 3 — strictly less than the 4
declared character classes — the generator raises no error and does return a
string, one of 4 characters, which exceeds the requested length. -/
theorem generateTempPassword_short_counterexample :
    (generateTempPassword ⟨fun _ => 0, 0⟩ 3).length = 4 := by decide

/-- Claim C6 (amended): for every length strictly below the number of
declared character classes the generator does not fail; it returns a string
of exactly 4 characters — one guaranteed character per class, all from the
class union — so the output exceeds the requested length instead of an
`InvalidLengthError` being raised. -/
theorem generateTempPassword_short_no_error (r : Rng) (n : Nat) (h : n < 4) :
    (generateTempPassword r n).length = 4 ∧
    (∃ c ∈ (generateTempPassword r n).data, c ∈ uppercase.data) ∧
    (∃ c ∈ (generateTempPassword r n).data, c ∈ lowercase.data) ∧
    (∃ c ∈ (generateTempPassword r n).data, c ∈ numbers.data) ∧
    (∃ c ∈ (generateTempPassword r n).data, c ∈ symbols.data) ∧
    ∀ c ∈ (generateTempPassword r n).data, c ∈ allChars.data := by
  obtain ⟨hl, hu, hw, hnum, hs, hall⟩ := generateTempPassword_spec r n
  exact ⟨by rw [hl]; omega, hu, hw, hnum, hs, hall⟩

theorem generateTempPassword_short_no_error_witness :
    (generateTempPassword ⟨fun _ => 0, 0⟩ 2).length = 4 :=
  (generateTempPassword_short_no_error ⟨fun _ => 0, 0⟩ 2 (by decide)).1

/-- Claim C8: `secureShuffle` returns a permutation of the input multiset —
the output has the same length and the same elements with the same
multiplicities — and its Fisher-Yates loop runs from index n-1 down to 1,
drawing one `secureRandomInt(i+1)` swap partner per step (n-1 oracle draws
in total). -/
theorem secureShuffle_is_permutation {α : Type} (r : Rng) (l : List α) :
    (secureShuffle r l).1.Perm l ∧
    (secureShuffle r l).1.length = l.length ∧
    (secureShuffle r l).2.idx = r.idx + (l.length - 1) :=
  ⟨shufflePerm r l, (shufflePerm r l).length_eq,
   fisherYatesLoop_idx r l (l.length - 1)⟩

end Paradise
